import Mathlib

namespace Gtfs2Shp


/-!
# Verification of the gtfs2shp shape aggregation and sub-segment geometry engine

Shallow embedding of the core of `patrickbr/gtfs2shp` (files
`shape/shapewriter.go` and `shape/aggrshape.go`) and proofs of the
specification claims about it.

Modelling conventions:
* Go `float64` / `float32` coordinate and distance values are modelled as
  exact rationals (`ℚ`).  A distance value that is `NaN` in the Go code
  (the GTFS "no distance_traveled given" marker, tested with `math.IsNaN`
  resp. `HasDistanceTraveled`) is modelled as `none : Option ℚ`.
* Go maps keyed by strings are modelled as association lists
  (`List (String × _)`); Go maps used as sets of keys are modelled as
  duplicate-free `List String` built with an insert-if-absent operation.
* Go per-route counter maps (`map[*gtfs.Route]int`, zero default value)
  are modelled as total functions `String → Nat` keyed by route id.
* Out-of-range slice indexing (which panics in Go) is modelled with a
  default element; all theorems below only touch in-range accesses.
-/

/-- A GTFS shape point: latitude, longitude and the optional cumulative
`shape_dist_traveled` value (`none` models the Go `NaN` marker). -/
structure ShapePoint where
  lat : ℚ
  lon : ℚ
  distTraveled : Option ℚ
  deriving DecidableEq, Repr

instance : Inhabited ShapePoint := ⟨⟨0, 0, none⟩⟩

/-- A GTFS shape: an id plus its ordered points. -/
structure Shape where
  id : String
  points : List ShapePoint
  deriving DecidableEq, Repr

instance : Inhabited Shape := ⟨⟨"", []⟩⟩

/-- Index access into a point list with a `Nat` index; Go panics out of
range, here a default point is returned (unreachable in the theorems). -/
def getPt (pts : List ShapePoint) (i : Nat) : ShapePoint :=
  pts.getD i default

/-- Index access with a Go `int` (possibly negative) index. -/
def getPtI (pts : List ShapePoint) (i : Int) : ShapePoint :=
  if i < 0 then default else getPt pts i.toNat

/-- The distance value of a point as used in the Go arithmetic after the
scan has established that it is not `NaN`. -/
def distD (p : ShapePoint) : ℚ := p.distTraveled.getD 0

/-!
## The first/last boundary scan

`gtfsShapePointsToShpLinePoints` (shapewriter.go, lines 629-655) and
`CalcMeterLength` (aggrshape.go, lines 74-98) each run the same loop to
find the boundary indices `first` and `last` of the sub-range
`[from, to]`.  Both are translated separately below, one per source
function, so that claim C4 can compare them.
-/

/-- Loop body of the boundary scan of `gtfsShapePointsToShpLinePoints`
(shapewriter.go lines 638-654): `n` is the total number of points, `i` the
current index, `first`/`last`/`haveFirst` the loop state. -/
def shpScanAux (n : Nat) (fromV toV : ℚ) :
    List ShapePoint → Nat → Nat → Int → Bool → Nat × Int
  | [], _, first, last, _ => (first, last)
  | p :: rest, i, first, last, haveFirst =>
    match p.distTraveled with
    | none => (0, (n : Int) - 1)
    | some d =>
      let first' := if !haveFirst && decide (fromV ≤ d) then i else first
      let haveFirst' := if !haveFirst && decide (fromV ≤ d) then true else haveFirst
      if haveFirst' && decide (toV < d) then (first', (i : Int) - 1)
      else shpScanAux n fromV toV rest (i + 1) first' last haveFirst'

/-- The `first`/`last` selection of `gtfsShapePointsToShpLinePoints`
(shapewriter.go lines 630-655), including the initial values and the
"both bounds defined" guard (`!math.IsNaN(from) && !math.IsNaN(to)`). -/
def shpScan (pts : List ShapePoint) (fromV toV : Option ℚ) : Nat × Int :=
  match fromV, toV with
  | some f, some t => shpScanAux pts.length f t pts 0 0 ((pts.length : Int) - 1) false
  | _, _ => (0, (pts.length : Int) - 1)

/-- Loop body of the boundary scan of `CalcMeterLength` (aggrshape.go
lines 81-97); textually the same loop as in the segment extractor, but
translated independently from its own source. -/
def calcMeterLengthScanAux (n : Nat) (fromV toV : ℚ) :
    List ShapePoint → Nat → Nat → Int → Bool → Nat × Int
  | [], _, first, last, _ => (first, last)
  | p :: rest, i, first, last, haveFirst =>
    match p.distTraveled with
    | none => (0, (n : Int) - 1)
    | some d =>
      let first' := if !haveFirst && decide (fromV ≤ d) then i else first
      let haveFirst' := if !haveFirst && decide (fromV ≤ d) then true else haveFirst
      if haveFirst' && decide (toV < d) then (first', (i : Int) - 1)
      else calcMeterLengthScanAux n fromV toV rest (i + 1) first' last haveFirst'

/-- The `first`/`last` selection of `CalcMeterLength` (aggrshape.go lines
74-98), with the NaN guard on `as.From`/`as.To`. -/
def calcMeterLengthScan (pts : List ShapePoint) (fromV toV : Option ℚ) : Nat × Int :=
  match fromV, toV with
  | some f, some t => calcMeterLengthScanAux pts.length f t pts 0 0 ((pts.length : Int) - 1) false
  | _, _ => (0, (pts.length : Int) - 1)

/-!
## The segment extractor

`gtfsShapePointsToShpLinePoints` (shapewriter.go lines 629-701).  The
reprojection (`proj.Transform2` or geographic passthrough) is the pluggable
projector `projF : lon → lat → (x, y)`; the identity instance used when no
reprojection is requested maps `(lon, lat)` to the point `(X = lon, Y = lat)`.
-/

/-- The identity projector: `shp.Point{float64(lon), float64(lat)}`. -/
def idProj : ℚ → ℚ → ℚ × ℚ := fun lon lat => (lon, lat)

/-- The interpolated boundary point emitted before `points[first]` when
`first > 0` (shapewriter.go lines 657-672). -/
def interpHead (pts : List ShapePoint) (first : Nat) (fromV : ℚ)
    (projF : ℚ → ℚ → ℚ × ℚ) : ℚ × ℚ :=
  let pA := getPt pts (first - 1)
  let pB := getPt pts first
  let latdiff := pB.lat - pA.lat
  let londiff := pB.lon - pA.lon
  let dMeasure := distD pB - distD pA
  let lat := pA.lat + latdiff / dMeasure * (fromV - distD pA)
  let lon := pA.lon + londiff / dMeasure * (fromV - distD pA)
  projF lon lat

/-- The interpolated boundary point emitted after `points[last]` when
`last < len-1` (shapewriter.go lines 683-698). -/
def interpTail (pts : List ShapePoint) (last : Int) (toV : ℚ)
    (projF : ℚ → ℚ → ℚ × ℚ) : ℚ × ℚ :=
  let pA := getPtI pts last
  let pB := getPtI pts (last + 1)
  let latdiff := pB.lat - pA.lat
  let londiff := pB.lon - pA.lon
  let dMeasure := distD pB - distD pA
  let lat := pA.lat + latdiff / dMeasure * (toV - distD pA)
  let lon := pA.lon + londiff / dMeasure * (toV - distD pA)
  projF lon lat

/-- A point of the emitted middle range, projected
(shapewriter.go lines 674-681). -/
def projAt (pts : List ShapePoint) (i : Nat) (projF : ℚ → ℚ → ℚ × ℚ) : ℚ × ℚ :=
  projF (getPt pts i).lon (getPt pts i).lat

/-- `gtfsShapePointsToShpLinePoints` (shapewriter.go lines 629-701): the
optionally trimmed, projected point sequence of a shape.  `fromV`/`toV`
are `none` when the corresponding Go `float64` is `NaN`. -/
def gtfsShapePointsToShpLinePoints (pts : List ShapePoint)
    (fromV toV : Option ℚ) (projF : ℚ → ℚ → ℚ × ℚ) : List (ℚ × ℚ) :=
  let fl := shpScan pts fromV toV
  let first := fl.1
  let last := fl.2
  (if 0 < first then [interpHead pts first (fromV.getD 0) projF] else [])
    ++ (List.range' first (last - first + 1).toNat).map (fun i => projAt pts i projF)
    ++ (if last < (pts.length : Int) - 1 then [interpTail pts last (toV.getD 0) projF] else [])

/-- The three-point shape of the C2 scenario:
`(lat=0,lon=0,d=0)`, `(lat=0,lon=1,d=1000)`, `(lat=0,lon=2,d=2000)`. -/
def pts3 : List ShapePoint := [⟨0, 0, some 0⟩, ⟨0, 1, some 1000⟩, ⟨0, 2, some 2000⟩]

/-!
## The trip aggregator

`getAggrShapes` (shapewriter.go lines 531-626) and the `AggrShape` record
(aggrshape.go lines 18-45).  Dates are modelled as integers (day numbers):
the external calendar interface provides the first/last active date, an
is-active predicate and a next-day step, which becomes `+ 1`.
`MeterLength` (a transcendental haversine sum computed once per record by
`CalcMeterLength`) is not carried in the record; its boundary scan — the
only part any claim speaks about — is `calcMeterLengthScan` above.
-/

/-- A GTFS stop: its own wheelchair_boarding flag and, if it has a parent
station, the parent's wheelchair_boarding flag. -/
structure Stop where
  wheelchairBoarding : Int
  parentWheelchairBoarding : Option Int
  deriving DecidableEq, Repr

instance : Inhabited Stop := ⟨⟨0, none⟩⟩

/-- A GTFS stop time: stop, optional shape_dist_traveled (`none` models
`HasDistanceTraveled() == false`), pickup and dropoff type flags. -/
structure StopTime where
  stop : Stop
  shapeDistTraveled : Option ℚ
  pickupType : Int
  dropOffType : Int
  deriving DecidableEq, Repr

instance : Inhabited StopTime := ⟨⟨default, none, 0, 0⟩⟩

/-- A GTFS route: id, short name, and transport type (`Route.Type`, an
int16). -/
structure Route where
  id : String
  Short_name : String
  typ : Int
  deriving DecidableEq, Repr

/-- A service calendar, as exposed by the external feed interface:
`GetFirstActiveDate`, `GetLastActiveDate` and `IsActiveOn`. -/
structure Service where
  firstActiveDate : Int
  lastActiveDate : Int
  activeOn : Int → Bool

/-- A GTFS trip with the fields read by the aggregator. -/
structure Trip where
  id : String
  shape : Option Shape
  stopTimes : List StopTime
  route : Route
  service : Service
  wheelchairAccessible : Int

/-- The part of the parsed feed the aggregator reads:
`feed.TripsAddFlds["__trip_count_no_count"]`, i.e. the duplicate
suppression marker map (`none` when the column is absent). -/
structure Feed where
  tripsAddFldsNoCount : Option (String → Option String)

/-- The days iterated by the calendar-expansion loop
(`for d := start; !d.GetTime().After(endT); d = d.GetOffsettedDate(1)`). -/
def serviceDayList (sv : Service) : List Int :=
  (List.range (sv.lastActiveDate + 1 - sv.firstActiveDate).toNat).map
    (fun k => sv.firstActiveDate + k)

/-- Lookup in the mode filter map `motMap : map[int16]bool`
(missing keys read as `false` in Go). -/
def motLookup (motMap : List (Int × Bool)) (ty : Int) : Bool :=
  (motMap.lookup ty).getD false

/-!
### One-decimal formatting of the boundary distances

The aggregation key appends
`strconv.FormatFloat(float64(x), 'f', 1, 64)` of the two boundary
distances.  `FormatFloat` prints the exact binary value of its argument
correctly rounded to one decimal, ties to even; with float values
modelled as exact rationals this is round-half-to-even of `10·x`,
followed by printing the integer with a decimal point before the final
digit.
-/

/-- The ASCII digit character of `n < 10`. -/
def digitChar (n : ℕ) : Char := Char.ofNat (48 + n)

/-- Decimal digits (most significant first) of a natural number;
fuel-structured so it reduces by `decide`/`rfl`. -/
def natDigitsAux : ℕ → ℕ → List Char
  | 0, _ => []
  | fuel + 1, n =>
    if n < 10 then [digitChar n]
    else natDigitsAux fuel (n / 10) ++ [digitChar (n % 10)]

/-- Decimal digits of a natural number. -/
def natDigits (n : ℕ) : List Char := natDigitsAux (n + 1) n

/-- Round a rational to the nearest integer, ties to even. -/
def roundHalfEven (x : ℚ) : ℤ :=
  let f := ⌊x⌋
  let r := x - f
  if r < 1/2 then f
  else if 1/2 < r then f + 1
  else if f % 2 = 0 then f else f + 1

/-- Print a sign flag and a number of tenths as a one-decimal string
(e.g. `(true, 13) ↦ "-1.3"`, and `(true, 0) ↦ "-0.0"`). -/
def decimalStr1 (neg : Bool) (n : ℕ) : String :=
  String.mk ((if neg then ['-'] else [])
    ++ natDigits (n / 10) ++ ['.'] ++ [digitChar (n % 10)])

/-- The exact information `FormatFloat(·, 'f', 1, 64)` prints about a
float value: its sign bit, and its magnitude correctly rounded to tenths
(ties to even).  A negative value whose magnitude rounds to zero keeps
its sign — Go prints `-0.0` for a distance in `(-0.05, 0)`, distinct
from `0.0`.  (The float negative zero itself, whose sign bit is not a
function of its numeric value, is below the resolution of the rational
model and is identified with `+0`.) -/
def signedRound1 (q : ℚ) : Bool × ℕ :=
  (decide (q < 0), (roundHalfEven (|q| * 10)).toNat)

/-- Model of `strconv.FormatFloat(float64(x), 'f', 1, 64)` on the exact
rational value of the float: the sign, then the magnitude rounded to one
decimal digit. -/
def fmt1 (q : ℚ) : String := decimalStr1 (signedRound1 q).1 (signedRound1 q).2

/-!
### The aggregation record and the per-trip update
-/

/-- `AggrShape` (aggrshape.go lines 18-29): per-route counter maps are
total functions keyed by route id (Go maps of default value 0; the
explicit zero-initialisations in shapewriter.go lines 576-590 are
no-ops in this model).  `Trips`/`Routes` hold the key sets of the Go
maps of the same names. -/
structure AggrShape where
  shape : Shape
  From : Option ℚ
  To : Option ℚ
  Trips : List String
  Routes : List (String × Route)
  RouteTripCount : String → Nat
  RouteUniqueTripCount : String → Nat
  NumStops : String → Nat
  WheelchairAccessibleTrips : String → Nat
  WheelchairAccessibleStops : String → Nat

/-- `NewAggrShape` (aggrshape.go lines 32-45): `From`/`To` start as `NaN`,
all maps empty. -/
def NewAggrShape : AggrShape where
  shape := default
  From := none
  To := none
  Trips := []
  Routes := []
  RouteTripCount := fun _ => 0
  RouteUniqueTripCount := fun _ => 0
  NumStops := fun _ => 0
  WheelchairAccessibleTrips := fun _ => 0
  WheelchairAccessibleStops := fun _ => 0

/-- First-match association-list lookup (Go map read). -/
def findA {β : Type} : List (String × β) → String → Option β
  | [], _ => none
  | (k', v) :: rest, k => if k' = k then some v else findA rest k

/-- Association-list write (Go map write): update in place, else append. -/
def setA {β : Type} : List (String × β) → String → β → List (String × β)
  | [], k, v => [(k, v)]
  | (k', v') :: rest, k, v =>
    if k' = k then (k', v) :: rest else (k', v') :: setA rest k v

/-- Insert a key into a Go map-as-set (`m[x] = true`): idempotent. -/
def insertNew (l : List String) (x : String) : List String :=
  if x ∈ l then l else l ++ [x]

/-- The raw boundary distances of a trip: `Shape_dist_traveled` of its
first and last stop time (shapewriter.go lines 551-553, 567-568). -/
def tripBoundsRaw (t : Trip) : Option ℚ × Option ℚ :=
  ((t.stopTimes.headD default).shapeDistTraveled,
   (t.stopTimes.getLastD default).shapeDistTraveled)

/-- The trip's shape id (`""` for the never-aggregated shapeless trips). -/
def tripShapeId (t : Trip) : String :=
  match t.shape with
  | some sh => sh.id
  | none => ""

/-- The aggregation key string `aggrShapeId` (shapewriter.go lines
549-555): the shape id, extended by `"%%%%%" + from + ":" + to` when both
boundary stop times carry a distance value. -/
def tripKey (t : Trip) : String :=
  match tripBoundsRaw t with
  | (some f, some l) => tripShapeId t ++ "%%%%%" ++ fmt1 f ++ ":" ++ fmt1 l
  | _ => tripShapeId t

/-- `numOnOffStops` (shapewriter.go lines 541-547): stop times whose
dropoff type or pickup type is not 1 ("no service"). -/
def numOnOffStops (t : Trip) : Nat :=
  t.stopTimes.countP (fun st => decide (st.dropOffType ≠ 1) || decide (st.pickupType ≠ 1))

/-- Stop times whose stop (or its parent station) is
wheelchair-boarding-accessible (shapewriter.go lines 616-620). -/
def wheelchairStopCount (t : Trip) : Nat :=
  t.stopTimes.countP (fun st =>
    decide (st.stop.wheelchairBoarding = 1)
      || (match st.stop.parentWheelchairBoarding with
          | some w => decide (w = 1)
          | none => false))

/-- The statistics increments applied for one active service day
(shapewriter.go lines 597-621). -/
def dailyInc (feed : Feed) (t : Trip) (a : AggrShape) : AggrShape :=
  let rid := t.route.id
  let uniqueInc : Nat :=
    match feed.tripsAddFldsNoCount with
    | some vals =>
      match vals t.id with
      | some v => if v = "1" then 0 else 1
      | none => 1
    | none => 1
  { a with
    RouteTripCount := fun r =>
      if r = rid then a.RouteTripCount r + 1 else a.RouteTripCount r
    RouteUniqueTripCount := fun r =>
      if r = rid then a.RouteUniqueTripCount r + uniqueInc else a.RouteUniqueTripCount r
    NumStops := fun r =>
      if r = rid then a.NumStops r + numOnOffStops t else a.NumStops r
    WheelchairAccessibleTrips := fun r =>
      if r = rid ∧ t.wheelchairAccessible = 1
      then a.WheelchairAccessibleTrips r + 1 else a.WheelchairAccessibleTrips r
    WheelchairAccessibleStops := fun r =>
      if r = rid then a.WheelchairAccessibleStops r + wheelchairStopCount t
      else a.WheelchairAccessibleStops r }

/-- The whole per-trip mutation of the trip's `AggrShape`: add the trip id
and route id to the key sets (shapewriter.go lines 573-574), then run the
calendar-expansion loop (lines 592-622). -/
def tripBump (feed : Feed) (t : Trip) (a : AggrShape) : AggrShape :=
  let a1 := { a with Trips := insertNew a.Trips t.id,
                     Routes := setA a.Routes t.route.id t.route }
  (serviceDayList t.service).foldl
    (fun acc d => if t.service.activeOn d then dailyInc feed t acc else acc) a1

/-- The skip condition of the aggregation loop (shapewriter.go line 537):
no shape, or a non-empty mode filter that excludes the route type, or
fewer than two stop times. -/
def skipTrip (motMap : List (Int × Bool)) (t : Trip) : Prop :=
  t.shape = none
    ∨ (motMap ≠ [] ∧ motLookup motMap t.route.typ = false)
    ∨ t.stopTimes.length < 2

instance (motMap : List (Int × Bool)) (t : Trip) : Decidable (skipTrip motMap t) := by
  unfold skipTrip
  infer_instance

/-- The aggregation state: the `ret` map of `AggrShape`s keyed by
aggregation key, and the `routeShapes` map route id → set of keys. -/
structure AggrResult where
  ret : List (String × AggrShape)
  routeShapes : List (String × List String)

/-- One iteration of the trip loop of `getAggrShapes` (shapewriter.go
lines 536-623). -/
def processTrip (motMap : List (Int × Bool)) (feed : Feed)
    (st : AggrResult) (t : Trip) : AggrResult :=
  match t.shape with
  | none => st
  | some sh =>
    if (motMap ≠ [] ∧ motLookup motMap t.route.typ = false) ∨ t.stopTimes.length < 2
    then st
    else
      let key := tripKey t
      let rs := setA st.routeShapes t.route.id
        (insertNew ((findA st.routeShapes t.route.id).getD []) key)
      let cur : AggrShape :=
        match findA st.ret key with
        | some a => a
        | none =>
          { NewAggrShape with
            shape := sh
            From := (t.stopTimes.headD default).shapeDistTraveled
            To := (t.stopTimes.getLastD default).shapeDistTraveled }
      { ret := setA st.ret key (tripBump feed t cur), routeShapes := rs }

/-- `getAggrShapes` (shapewriter.go lines 531-626) over a list of trips
(the Go input is a map iterated in unspecified order; the claims below
are order-insensitive). -/
def getAggrShapes (motMap : List (Int × Bool)) (feed : Feed)
    (trips : List Trip) : AggrResult :=
  trips.foldl (processTrip motMap feed) ⟨[], []⟩

/-- The boundary distances of a trip as printed into the key — sign and
one-decimal-rounded magnitude — or `none` when either boundary lacks
distance data (the whole-shape case); the notion of key agreement used
by claim C1. -/
def roundedBounds (t : Trip) : Option ((Bool × ℕ) × (Bool × ℕ)) :=
  match tripBoundsRaw t with
  | (some f, some l) => some (signedRound1 f, signedRound1 l)
  | _ => none

/-- The default record a first-encountered key is initialised with. -/
def newAggrFor (t : Trip) : AggrShape :=
  { NewAggrShape with
    shape := t.shape.getD default
    From := (t.stopTimes.headD default).shapeDistTraveled
    To := (t.stopTimes.getLastD default).shapeDistTraveled }

/-- A fully active 10-day service calendar (days 1..10). -/
def svc10 : Service := ⟨1, 10, fun _ => true⟩

/-- A sample route. -/
def routeR : Route := ⟨"R", "r", 3⟩

/-- A sample shape with no distance-traveled data. -/
def shapeS : Shape := ⟨"S", [⟨0, 0, none⟩, ⟨0, 1, none⟩]⟩

/-- A stop time with no distance-traveled data. -/
def stopTimePlain : StopTime := ⟨⟨0, none⟩, none, 0, 0⟩

/-- A daily trip on `shapeS`/`routeR` over the 10-day calendar. -/
def tripOn10 (tid : String) : Trip :=
  ⟨tid, some shapeS, [stopTimePlain, stopTimePlain], routeR, svc10, 0⟩

/-- A trip with no shape reference (always skipped). -/
def tripNoShape : Trip :=
  ⟨"tx", none, [stopTimePlain, stopTimePlain], routeR, svc10, 0⟩

/-- A feed without the `__trip_count_no_count` suppression column. -/
def feedNone : Feed := ⟨none⟩

/-- Digit parsing: left inverse of `natDigits`. -/
def parseDigits (l : List Char) : ℕ :=
  l.foldl (fun a c => a * 10 + (c.toNat - 48)) 0

/-- The trip-id set stored at key `k` (empty when the key is absent). -/
def tripsAt (st : AggrResult) (k : String) : List String :=
  ((findA st.ret k).map AggrShape.Trips).getD []

/-- "Two trips land in the same AggrShape": some key\'s record contains
both trip ids in its `Trips` set. -/
def inSameAggrShape (res : AggrResult) (t1 t2 : Trip) : Prop :=
  ∃ k a, findA res.ret k = some a ∧ t1.id ∈ a.Trips ∧ t2.id ∈ a.Trips

/-- A shape whose id happens to spell a ranged aggregation key. -/
def shapeColl : Shape := ⟨"A%%%%%0.0:1.0", [⟨0, 0, none⟩, ⟨0, 1, none⟩]⟩

/-- A shape named `A` with distance data 0..1. -/
def shapeA : Shape := ⟨"A", [⟨0, 0, some 0⟩, ⟨0, 1, some 1⟩]⟩

/-- A stop time carrying a distance-traveled value. -/
def stWithDist (d : ℚ) : StopTime := ⟨⟨0, none⟩, some d, 0, 0⟩

/-- A trip on `shapeColl` without boundary distance data. -/
def tripU1 : Trip := ⟨"u1", some shapeColl, [stopTimePlain, stopTimePlain], routeR, svc10, 0⟩

/-- A trip on `shapeA` trimmed to `[0, 1]`. -/
def tripU2 : Trip := ⟨"u2", some shapeA, [stWithDist 0, stWithDist 1], routeR, svc10, 0⟩

/-!
## Field width resolution

`getFieldSizesForShapes` (shapewriter.go lines 927-954),
`getFieldSizesForShape` (lines 731-743), the string getters of
`AggrShape` (aggrshape.go lines 49-72 and 135-147), `min` (lines
1089-1094) and `fldName` (lines 1030-1035).
-/

/-- A shapefile attribute field declaration (go-shp `shp.Field`):
string fields carry a data-dependent width, numeric/float fields a fixed
declared width (and precision). -/
inductive ShpField where
  | StringField (name : String) (size : Nat)
  | NumberField (name : String) (size : Nat)
  | FloatField (name : String) (size : Nat) (precision : Nat)
  deriving DecidableEq, Repr

/-- `min` (shapewriter.go lines 1089-1094). -/
def goMin (a b : Nat) : Nat := if a < b then a else b

/-- The Go `uint8(...)` conversion (values ≤ 254 pass through). -/
def uint8Of (n : Nat) : Nat := n % 256

/-- `fldName` (shapewriter.go lines 1030-1035): apply the field-name
remapping table where defined. -/
def fldName (fldMap : List (String × String)) (f : String) : String :=
  ((fldMap.lookup f).getD f)

/-- `GetTripIdsString` (aggrshape.go lines 49-56): comma-joined trip ids. -/
def GetTripIdsString (as : AggrShape) : String :=
  String.intercalate "," as.Trips

/-- `GetRouteIdsString` (aggrshape.go lines 60-72): comma-joined route
ids (the keys of the `Routes` map, already unique). -/
def GetRouteIdsString (as : AggrShape) : String :=
  String.intercalate "," (as.Routes.map Prod.fst)

/-- Left-fold set insertion, modelling collecting values into a Go
map-as-set. -/
def dedupKeep (l : List String) : List String :=
  l.foldl (fun acc x => insertNew acc x) []

/-- `GetShortNamesString` (aggrshape.go lines 135-147): comma-joined set
of the routes\' short names. -/
def GetShortNamesString (as : AggrShape) : String :=
  String.intercalate "," (dedupKeep (as.Routes.map (fun e => e.2.Short_name)))

/-- One `uint8(min(254, len))`-max-fold of `getFieldSizesForShapes`. -/
def sizeFold (f : AggrShape → Nat) (shapes : List AggrShape) : Nat :=
  shapes.foldl
    (fun sz s => if sz < uint8Of (goMin 254 (f s)) then uint8Of (goMin 254 (f s)) else sz) 0

/-- `getFieldSizesForShapes` (shapewriter.go lines 927-954). -/
def getFieldSizesForShapes (fldMap : List (String × String))
    (shapes : List AggrShape) : List ShpField :=
  [ShpField.StringField (fldName fldMap "Id") (sizeFold (fun s => s.shape.id.length) shapes),
   ShpField.StringField (fldName fldMap "TripIds")
     (sizeFold (fun s => (GetTripIdsString s).length) shapes),
   ShpField.StringField (fldName fldMap "RouteIds")
     (sizeFold (fun s => (GetRouteIdsString s).length) shapes),
   ShpField.StringField (fldName fldMap "RouteNames")
     (sizeFold (fun s => (GetShortNamesString s).length) shapes)]

/-- `getFieldSizesForShape` (shapewriter.go lines 731-743): one
data-dependent string width, two fixed float field widths. -/
def getFieldSizesForShape (fldMap : List (String × String))
    (shape : Shape) : List ShpField :=
  [ShpField.StringField (fldName fldMap "Id")
     (if 0 < uint8Of (goMin 254 shape.id.length)
      then uint8Of (goMin 254 shape.id.length) else 0),
   ShpField.FloatField (fldName fldMap "DistTravFrom") 64 10,
   ShpField.FloatField (fldName fldMap "DistTravTo") 64 10]

/-- The maximal observed value of `f` over the records. -/
def maxObs (f : AggrShape → Nat) (shapes : List AggrShape) : Nat :=
  shapes.foldl (fun acc s => max acc (f s)) 0

/-- An aggregated record whose only string payload is one trip id. -/
def aggrOfTripId (tid : String) : AggrShape :=
  { NewAggrShape with Trips := [tid] }

/-!
## Division-by-zero in derived ratios

`WriteRouteOverviewCsv` (shapewriter.go lines 281-318) and
`WriteRouteShapes` (lines 385-388) compute wheelchair-accessibility
ratios as Go `float64` divisions.  Go float division is total and never
panics: a zero divisor yields ±Inf or NaN, a non-finite "undefined"
numeric value, modelled here as `none`.
-/

/-- Go `float64` division on exact values: `none` models the non-finite
result of dividing by zero. -/
def fdiv (a b : ℚ) : Option ℚ := if b = 0 then none else some (a / b)

/-- One per-route accumulator of `WriteRouteOverviewCsv` (lines 290-304):
the sum of one counter over the route\'s aggregation keys. -/
def routeStatTot (aggr : List (String × AggrShape)) (keys : List String)
    (r : String) (f : AggrShape → String → Nat) : Nat :=
  keys.foldl (fun acc k => acc + (((findA aggr k).map (fun a => f a r)).getD 0)) 0

/-- The `Wchair_tr` and `Wchair_st` cells of one route row of
`WriteRouteOverviewCsv` (lines 317-318). -/
def routeOverviewWchairCells (aggr : List (String × AggrShape))
    (keys : List String) (r : String) : Option ℚ × Option ℚ :=
  (fdiv (routeStatTot aggr keys r (fun a => a.WheelchairAccessibleTrips))
        (routeStatTot aggr keys r (fun a => a.RouteTripCount)),
   fdiv (routeStatTot aggr keys r (fun a => a.WheelchairAccessibleStops))
        (routeStatTot aggr keys r (fun a => a.NumStops)))

/-- The per-record wheelchair attribute cells of `WriteRouteShapes`
(lines 385-388). -/
def routeShapeWchairCells (a : AggrShape) (r : String) : Option ℚ × Option ℚ :=
  (fdiv (a.WheelchairAccessibleTrips r) (a.RouteTripCount r),
   fdiv (a.WheelchairAccessibleStops r) (a.NumStops r))

/-!
## Basic facts about the scans and the extractor
-/

/-- Mapping an index-reading function over `List.range l.length` reads off
the list itself. -/
theorem map_getD_range {α β : Type} (f : α → β) (d : α) :
    ∀ l : List α, (List.range l.length).map (fun i => f (l.getD i d)) = l.map f := by
  intro l
  induction l with
  | nil => rfl
  | cons x xs ih =>
    simp only [List.length_cons, List.range_succ_eq_map, List.map_cons, List.getD_cons_zero,
      List.map_map]
    refine congrArg (f x :: ·) ?_
    rw [← ih]
    exact List.map_congr_left fun i _ => by simp [Function.comp, List.getD_cons_succ]

/-- When the boundary scan selects the full range `[0, len-1]`, the
extractor emits every point, projected, in order, with no interpolated
boundary points. -/
theorem extract_of_scan_full (pts : List ShapePoint) (fromV toV : Option ℚ)
    (projF : ℚ → ℚ → ℚ × ℚ)
    (h : shpScan pts fromV toV = (0, (pts.length : Int) - 1)) :
    gtfsShapePointsToShpLinePoints pts fromV toV projF
      = pts.map (fun p => projF p.lon p.lat) := by
  unfold gtfsShapePointsToShpLinePoints
  rw [h]
  have hcount : ((pts.length : Int) - 1 - ((0 : Nat) : Int) + 1).toNat = pts.length := by omega
  simp only [lt_self_iff_false, if_false, List.nil_append, List.append_nil, hcount]
  rw [← List.range_eq_range', ← map_getD_range (fun p => projF p.lon p.lat) default pts]
  exact List.map_congr_left fun i _ => rfl

/-- If every scanned point has a defined distance strictly below `fromV`,
the scan loop never sets `haveFirst` and never breaks, leaving the
accumulators untouched. -/
theorem shpScanAux_all_below (n : Nat) (fromV toV : ℚ) :
    ∀ (rest : List ShapePoint) (i first : Nat) (last : Int)
      (_ : ∀ p ∈ rest, ∃ d, p.distTraveled = some d ∧ d < fromV),
      shpScanAux n fromV toV rest i first last false = (first, last) := by
  intro rest
  induction rest with
  | nil => intro i first last _; rfl
  | cons p r ih =>
    intro i first last hall
    obtain ⟨d, hd, hdlt⟩ := hall p (List.mem_cons_self p r)
    have hdec : decide (fromV ≤ d) = false := decide_eq_false (not_le.mpr hdlt)
    unfold shpScanAux
    rw [hd]
    simp only [Bool.not_false, Bool.true_and, hdec, Bool.false_and, if_false,
      Bool.false_eq_true]
    exact ih (i + 1) first last fun q hq => hall q (List.mem_cons_of_mem p hq)

/-!
## Claim theorems: C7, C10, C2, C4
-/

/-- Claim C7: extraction with both `from` and `to` undefined (`NaN`) and
the identity projector returns the input point sequence unchanged: the
same coordinates `(lon, lat)` in the same order with the same count and
no interpolated points. -/
theorem extract_undefined_bounds_is_identity (pts : List ShapePoint) :
    gtfsShapePointsToShpLinePoints pts none none idProj
      = pts.map (fun p => (p.lon, p.lat)) :=
  extract_of_scan_full pts none none idProj rfl

/-- Claim C10: with exactly one of `from`/`to` undefined (`NaN`), or with
every point's distance-traveled defined and strictly below `from`, the
extractor returns the full untrimmed projected point sequence — the same
fallback as the both-undefined case. -/
theorem extract_fallback_cases (pts : List ShapePoint) (fv tv : ℚ)
    (projF : ℚ → ℚ → ℚ × ℚ) :
    gtfsShapePointsToShpLinePoints pts (some fv) none projF
        = pts.map (fun p => projF p.lon p.lat)
    ∧ gtfsShapePointsToShpLinePoints pts none (some tv) projF
        = pts.map (fun p => projF p.lon p.lat)
    ∧ ((∀ p ∈ pts, ∃ d, p.distTraveled = some d ∧ d < fv) →
        gtfsShapePointsToShpLinePoints pts (some fv) (some tv) projF
          = pts.map (fun p => projF p.lon p.lat)) := by
  refine ⟨extract_of_scan_full pts _ none projF rfl,
          extract_of_scan_full pts none _ projF rfl, fun hall => ?_⟩
  refine extract_of_scan_full pts _ _ projF ?_
  unfold shpScan
  exact shpScanAux_all_below pts.length fv tv pts 0 0 _ hall

/-- Witness for C10 at a concrete input: three points with distances
0, 1000, 2000, all strictly below `from = 5000`. -/
theorem extract_fallback_cases_witness :
    gtfsShapePointsToShpLinePoints
        [⟨0, 0, some 0⟩, ⟨0, 1, some 1000⟩, ⟨0, 2, some 2000⟩]
        (some 5000) (some 6000) idProj
      = [(0, 0), (1, 0), (2, 0)] := by
  have h := (extract_fallback_cases
      [⟨0, 0, some 0⟩, ⟨0, 1, some 1000⟩, ⟨0, 2, some 2000⟩] 5000 6000 idProj).2.2
      (by
        intro p hp
        simp only [List.mem_cons, List.not_mem_nil, or_false] at hp
        rcases hp with h | h | h <;> subst h
        · exact ⟨0, rfl, by norm_num⟩
        · exact ⟨1000, rfl, by norm_num⟩
        · exact ⟨2000, rfl, by norm_num⟩)
  rw [h]
  rfl

/-- Counterexample to claim C2: on the scenario shape, extracting
`[500, 1500]` with the identity projector yields 3 points, not 4. -/
theorem extract_scenario_not_four_points :
    gtfsShapePointsToShpLinePoints pts3 (some 500) (some 1500) idProj
        = [(1/2, 0), (1, 0), (3/2, 0)]
    ∧ (gtfsShapePointsToShpLinePoints pts3 (some 500) (some 1500) idProj).length ≠ 4 := by
  have h : gtfsShapePointsToShpLinePoints pts3 (some 500) (some 1500) idProj
      = [(1/2, 0), (1, 0), (3/2, 0)] := by with_unfolding_all rfl
  exact ⟨h, by rw [h]; simp⟩

/-- Claim C2 (amended): the scenario yields exactly 3 points — the
interpolated boundary point `(lon=0.5, d=500)`, the single interior
original point `(lon=1, d=1000)`, and the interpolated boundary point
`(lon=1.5, d=1500)`. -/
theorem extract_scenario_three_points :
    gtfsShapePointsToShpLinePoints pts3 (some 500) (some 1500) idProj
      = [(1/2, 0), (1, 0), (3/2, 0)] := by
  with_unfolding_all rfl

/-- The two boundary-scan loop bodies, translated independently from
`CalcMeterLength` and from `gtfsShapePointsToShpLinePoints`, coincide. -/
theorem calcMeterLengthScanAux_eq_shpScanAux (n : Nat) (fromV toV : ℚ) :
    ∀ (rest : List ShapePoint) (i first : Nat) (last : Int) (haveFirst : Bool),
      calcMeterLengthScanAux n fromV toV rest i first last haveFirst
        = shpScanAux n fromV toV rest i first last haveFirst := by
  intro rest
  induction rest with
  | nil => intro i first last hf; rfl
  | cons p r ih =>
    intro i first last hf
    unfold calcMeterLengthScanAux shpScanAux
    cases p.distTraveled with
    | none => rfl
    | some d =>
      cases hc : (!hf && decide (fromV ≤ d)) <;>
        simp only [hc, Bool.false_eq_true, if_false, if_true] <;> rw [ih]

/-- Claim C4: for every point sequence and every `from`/`to` pair
(`NaN` modelled as `none`), the length computation `CalcMeterLength`
selects exactly the same `first`/`last` boundary indices as the segment
extractor `gtfsShapePointsToShpLinePoints`, including the fallback to the
full range `[0, len-1]` on an undefined bound or an undefined
point distance. -/
theorem calcMeterLengthScan_eq_shpScan (pts : List ShapePoint)
    (fromV toV : Option ℚ) :
    calcMeterLengthScan pts fromV toV = shpScan pts fromV toV := by
  unfold calcMeterLengthScan shpScan
  cases fromV with
  | none => rfl
  | some f =>
    cases toV with
    | none => rfl
    | some t => exact calcMeterLengthScanAux_eq_shpScanAux pts.length f t pts 0 0 _ false

section C3

variable (pts : List ShapePoint) (D : ℕ → ℚ)

/-- getPt as getElem below length. -/
theorem getPt_eq (i : ℕ) (h : i < pts.length) : getPt pts i = pts[i] :=
  List.getD_eq_getElem pts default h

theorem drop_cons (i : ℕ) (h : i < pts.length) :
    pts.drop i = getPt pts i :: pts.drop (i + 1) := by
  rw [getPt_eq pts i h]; exact List.drop_eq_getElem_cons h

theorem scan_pre (j k : ℕ)
    (hlen : ∀ i < pts.length, (getPt pts i).distTraveled = some (D i))
    (hmono : ∀ a b, a < b → b < pts.length → D a < D b)
    (hjk : j ≤ k) (hk : k < pts.length) :
    ∀ (c i first0 : ℕ) (last0 : Int), i + c = j →
      shpScanAux pts.length (D j) (D k) (pts.drop i) i first0 last0 false
        = shpScanAux pts.length (D j) (D k) (pts.drop j) j first0 last0 false := by
  intro c
  induction c with
  | zero => intro i first0 last0 hij; simp at hij; subst hij; rfl
  | succ c ih =>
    intro i first0 last0 hij
    have hi : i < j := by omega
    have hilt : i < pts.length := by omega
    rw [drop_cons pts i hilt]
    conv_lhs => unfold shpScanAux
    rw [hlen i hilt]
    have hdec : decide (D j ≤ D i) = false :=
      decide_eq_false (not_le.mpr (hmono i j hi (by omega)))
    simp only [Bool.not_false, Bool.true_and, hdec, Bool.false_and, if_false,
      Bool.false_eq_true]
    exact ih (i + 1) first0 last0 (by omega)

theorem scan_post (j k : ℕ)
    (hlen : ∀ i < pts.length, (getPt pts i).distTraveled = some (D i))
    (hmono : ∀ a b, a < b → b < pts.length → D a < D b)
    (hjk : j ≤ k) (hk : k < pts.length) :
    ∀ (c i : ℕ) (last0 : Int), i + c = k + 1 → j < i →
      shpScanAux pts.length (D j) (D k) (pts.drop i) i j last0 true
        = (j, if k + 1 < pts.length then (k : Int) else last0) := by
  intro c
  induction c with
  | zero =>
    intro i last0 hik hji
    have hik' : i = k + 1 := by omega
    subst hik'
    by_cases hkn : k + 1 < pts.length
    · rw [drop_cons pts (k+1) hkn]
      unfold shpScanAux
      rw [hlen (k+1) hkn]
      have hdec : decide (D k < D (k+1)) = true :=
        decide_eq_true (hmono k (k+1) (by omega) hkn)
      simp only [Bool.not_true, Bool.false_and, if_false, Bool.true_and, hdec, if_true,
        Bool.false_eq_true]
      rw [if_pos hkn]
      congr 1
      omega
    · have : pts.drop (k+1) = [] := List.drop_eq_nil_of_le (by omega)
      rw [this]
      unfold shpScanAux
      simp [hkn]
  | succ c ih =>
    intro i last0 hik hji
    have hi : i ≤ k := by omega
    have hilt : i < pts.length := by omega
    rw [drop_cons pts i hilt]
    unfold shpScanAux
    rw [hlen i hilt]
    have hdec : decide (D k < D i) = false := by
      rcases Nat.lt_or_ge i k with h | h
      · exact decide_eq_false (not_lt.mpr (le_of_lt (hmono i k h hk)))
      · have : i = k := by omega
        subst this
        exact decide_eq_false (lt_irrefl _)
    simp only [Bool.not_true, Bool.false_and, if_false, Bool.true_and, hdec,
      Bool.false_eq_true]
    exact ih (i + 1) last0 (by omega) (by omega)

theorem scan_breakpoints (j k : ℕ)
    (hlen : ∀ i < pts.length, (getPt pts i).distTraveled = some (D i))
    (hmono : ∀ a b, a < b → b < pts.length → D a < D b)
    (hjk : j ≤ k) (hk : k < pts.length) :
    shpScan pts (some (D j)) (some (D k)) = (j, (k : Int)) := by
  have hj : j < pts.length := by omega
  show shpScanAux pts.length (D j) (D k) pts 0 0 ((pts.length : Int) - 1) false = (j, (k : Int))
  have h0 : shpScanAux pts.length (D j) (D k) pts 0 0 ((pts.length : Int) - 1) false
      = shpScanAux pts.length (D j) (D k) (pts.drop j) j 0 ((pts.length : Int) - 1) false := by
    have := scan_pre pts D j k hlen hmono hjk hk j 0 0 ((pts.length : Int) - 1) (by omega)
    simpa using this
  rw [h0, drop_cons pts j hj]
  conv_lhs => unfold shpScanAux
  rw [hlen j hj]
  have hdec1 : decide (D j ≤ D j) = true := decide_eq_true le_rfl
  have hdec2 : decide (D k < D j) = false := by
    rcases Nat.lt_or_ge j k with h | h
    · exact decide_eq_false (not_lt.mpr (le_of_lt (hmono j k h hk)))
    · have : j = k := by omega
      subst this
      exact decide_eq_false (lt_irrefl _)
  simp only [Bool.not_false, Bool.true_and, hdec1, if_true, hdec2, Bool.and_false,
    Bool.false_eq_true, if_false]
  have hpost := scan_post pts D j k hlen hmono hjk hk (k - j) (j + 1)
      ((pts.length : Int) - 1) (by omega) (by omega)
  rw [hpost]
  by_cases hkn : k + 1 < pts.length
  · rw [if_pos hkn]
  · rw [if_neg hkn]
    congr 1
    omega

theorem range'_map_getD_take_drop {β : Type} (f : ShapePoint → β) :
    ∀ (c s : ℕ), s + c ≤ pts.length →
      (List.range' s c).map (fun i => f (getPt pts i))
        = ((pts.drop s).take c).map f := by
  intro c
  induction c with
  | zero => intro s _; simp
  | succ c ih =>
    intro s hs
    have hslt : s < pts.length := by omega
    rw [List.range'_succ, drop_cons pts s hslt]
    simp only [List.map_cons, List.take_succ_cons]
    rw [ih (s + 1) (by omega)]

theorem interpHead_breakpoint (projF : ℚ → ℚ → ℚ × ℚ) (j : ℕ)
    (hlen : ∀ i < pts.length, (getPt pts i).distTraveled = some (D i))
    (hmono : ∀ a b, a < b → b < pts.length → D a < D b)
    (hj0 : 0 < j) (hj : j < pts.length) :
    interpHead pts j (D j) projF = projAt pts j projF := by
  have hA : distD (getPt pts (j - 1)) = D (j - 1) := by
    rw [distD, hlen (j - 1) (by omega)]; rfl
  have hB : distD (getPt pts j) = D j := by
    rw [distD, hlen j hj]; rfl
  have hne : D j - D (j - 1) ≠ 0 :=
    sub_ne_zero.mpr (ne_of_gt (hmono (j - 1) j (by omega) hj))
  simp only [interpHead, projAt, hA, hB]
  congr 1 <;> rw [div_mul_cancel₀ _ hne] <;> ring

theorem interpTail_breakpoint (projF : ℚ → ℚ → ℚ × ℚ) (k : ℕ)
    (hlen : ∀ i < pts.length, (getPt pts i).distTraveled = some (D i))
    (hk1 : k + 1 < pts.length) :
    interpTail pts (k : Int) (D k) projF = projAt pts k projF := by
  have h1 : getPtI pts (k : Int) = getPt pts k := by
    unfold getPtI
    rw [if_neg (by omega)]
    simp
  have h2 : ((k : Int) + 1) = ((k + 1 : ℕ) : Int) := by omega
  have h3 : getPtI pts ((k : Int) + 1) = getPt pts (k + 1) := by
    unfold getPtI
    rw [if_neg (by omega), h2]
    simp
  have hA : distD (getPt pts k) = D k := by
    rw [distD, hlen k (by omega)]; rfl
  simp only [interpTail, projAt, h1, h3, hA]
  congr 1 <;> ring

/-- Claim C3 (amended): on a point sequence with defined, strictly
increasing distances, extracting the sub-range whose bounds exactly equal
the distances of breakpoints `j ≤ k` returns the contiguous subsequence
`points[j..k]`; additionally, when `j > 0` an interpolated boundary point
that coincides exactly with `points[j]` is emitted before it, and when
`k < len-1` an interpolated boundary point coinciding with `points[k]` is
emitted after it (so only for `j = 0` and `k = len-1` is the output the
bare subsequence). -/
theorem extract_matched_breakpoints (projF : ℚ → ℚ → ℚ × ℚ) (j k : ℕ)
    (hlen : ∀ i < pts.length, (getPt pts i).distTraveled = some (D i))
    (hmono : ∀ a b, a < b → b < pts.length → D a < D b)
    (hjk : j ≤ k) (hk : k < pts.length) :
    gtfsShapePointsToShpLinePoints pts (some (D j)) (some (D k)) projF
      = (if 0 < j then [projAt pts j projF] else [])
        ++ ((pts.drop j).take (k - j + 1)).map (fun p => projF p.lon p.lat)
        ++ (if k + 1 < pts.length then [projAt pts k projF] else []) := by
  unfold gtfsShapePointsToShpLinePoints
  rw [scan_breakpoints pts D j k hlen hmono hjk hk]
  have hcount : ((k : Int) - (j : ℕ) + 1).toNat = k - j + 1 := by omega
  simp only [hcount, Option.getD_some]
  have hmid := range'_map_getD_take_drop pts (fun p => projF p.lon p.lat) (k - j + 1) j (by omega)
  rw [show (fun i => projAt pts i projF) = (fun i => (fun p => projF p.lon p.lat) (getPt pts i))
    from rfl, hmid]
  have hcond : ((k : Int) < (pts.length : Int) - 1) = (k + 1 < pts.length) := by
    apply propext
    omega
  simp only [hcond]
  by_cases hj0 : 0 < j
  · rw [if_pos hj0, if_pos hj0, interpHead_breakpoint pts D projF j hlen hmono hj0 (by omega)]
    by_cases hkn : k + 1 < pts.length
    · rw [if_pos hkn, if_pos hkn, interpTail_breakpoint pts D projF k hlen hkn]
    · rw [if_neg hkn, if_neg hkn]
  · rw [if_neg hj0, if_neg hj0]
    by_cases hkn : k + 1 < pts.length
    · rw [if_pos hkn, if_pos hkn, interpTail_breakpoint pts D projF k hlen hkn]
    · rw [if_neg hkn, if_neg hkn]

end C3

/-- Counterexample to claim C3: on the scenario shape with breakpoints at
distances 0, 1000, 2000, extracting exactly `[1000, 2000]` emits an extra
interpolated point (coinciding with the first breakpoint) in addition to
the original subsequence `[(1,0),(2,0)]`. -/
theorem extract_matched_breakpoints_not_exact :
    gtfsShapePointsToShpLinePoints pts3 (some 1000) (some 2000) idProj
        = [(1, 0), (1, 0), (2, 0)]
    ∧ gtfsShapePointsToShpLinePoints pts3 (some 1000) (some 2000) idProj
        ≠ ((pts3.drop 1).take 2).map (fun p => (p.lon, p.lat)) := by
  have h : gtfsShapePointsToShpLinePoints pts3 (some 1000) (some 2000) idProj
      = [(1, 0), (1, 0), (2, 0)] := by with_unfolding_all rfl
  refine ⟨h, ?_⟩
  rw [h]
  intro hc
  have := congrArg List.length hc
  simp [pts3] at this

/-- Witness for C3 (amended) at `j = 0`, `k = 2` on the scenario shape:
the whole-range extraction is the bare subsequence with no interpolated
points. -/
theorem extract_matched_breakpoints_witness :
    gtfsShapePointsToShpLinePoints pts3 (some 0) (some 2000) idProj
      = [(0, 0), (1, 0), (2, 0)] := by
  have hlen : ∀ i < pts3.length, (getPt pts3 i).distTraveled
      = some ((fun i : ℕ => (i : ℚ) * 1000) i) := by
    intro i hi
    have h3 : i < 3 := by simpa [pts3] using hi
    interval_cases i <;> norm_num [pts3, getPt]
  have hmono : ∀ a b : ℕ, a < b → b < pts3.length →
      (fun i : ℕ => (i : ℚ) * 1000) a < (fun i : ℕ => (i : ℚ) * 1000) b := by
    intro a b hab hb
    have h1 : (a : ℚ) < b := by exact_mod_cast hab
    simp only []
    nlinarith
  have h := extract_matched_breakpoints pts3 (fun i : ℕ => (i : ℚ) * 1000) idProj 0 2 hlen hmono
    (by norm_num) (by norm_num [pts3])
  norm_num [pts3, idProj, getPt] at h
  convert h using 2

section AggrLemmas

variable (motMap : List (Int × Bool)) (feed : Feed)

theorem findA_setA_self {β : Type} (m : List (String × β)) (k : String) (v : β) :
    findA (setA m k v) k = some v := by
  induction m with
  | nil => simp [setA, findA]
  | cons e rest ih =>
    obtain ⟨k', v'⟩ := e
    by_cases h : k' = k
    · subst h
      simp [setA, findA]
    · simp [setA, findA, h, ih]

theorem findA_setA_ne {β : Type} (m : List (String × β)) (k k' : String) (v : β)
    (h : k' ≠ k) : findA (setA m k v) k' = findA m k' := by
  induction m with
  | nil => simp [setA, findA, Ne.symm h]
  | cons e rest ih =>
    obtain ⟨k0, v0⟩ := e
    by_cases h0 : k0 = k
    · subst h0
      simp [setA, findA, Ne.symm h]
    · simp only [setA, if_neg h0, findA]
      by_cases h1 : k0 = k'
      · simp [h1]
      · simp [h1, ih]

theorem mem_insertNew (l : List String) (x y : String) :
    y ∈ insertNew l x ↔ y ∈ l ∨ y = x := by
  unfold insertNew
  by_cases h : x ∈ l
  · simp only [if_pos h]
    constructor
    · exact Or.inl
    · rintro (hy | rfl)
      · exact hy
      · exact h
  · simp [if_neg h]

theorem mem_insertNew_self (l : List String) (x : String) : x ∈ insertNew l x := by
  rw [mem_insertNew]
  exact Or.inr rfl

/-- The calendar-expansion fold leaves `Trips` untouched. -/
theorem calendarFold_Trips (t : Trip) (l : List Int) (a : AggrShape) :
    ((l.foldl (fun acc d => if t.service.activeOn d then dailyInc feed t acc else acc) a)).Trips
      = a.Trips := by
  induction l generalizing a with
  | nil => rfl
  | cons d l ih =>
    simp only [List.foldl_cons]
    rw [ih]
    by_cases h : t.service.activeOn d <;> simp [h, dailyInc]

/-- The calendar-expansion fold leaves `Routes` untouched. -/
theorem calendarFold_Routes (t : Trip) (l : List Int) (a : AggrShape) :
    ((l.foldl (fun acc d => if t.service.activeOn d then dailyInc feed t acc else acc) a)).Routes
      = a.Routes := by
  induction l generalizing a with
  | nil => rfl
  | cons d l ih =>
    simp only [List.foldl_cons]
    rw [ih]
    by_cases h : t.service.activeOn d <;> simp [h, dailyInc]

theorem tripBump_Trips (t : Trip) (a : AggrShape) :
    (tripBump feed t a).Trips = insertNew a.Trips t.id := by
  unfold tripBump
  rw [calendarFold_Trips]

/-- The calendar-expansion fold adds one to the trip's route's raw trip
count for each active day in the list. -/
theorem calendarFold_RouteTripCount (t : Trip) (l : List Int) (a : AggrShape) :
    ((l.foldl (fun acc d => if t.service.activeOn d then dailyInc feed t acc else acc)
        a)).RouteTripCount t.route.id
      = a.RouteTripCount t.route.id + l.countP (fun d => t.service.activeOn d) := by
  induction l generalizing a with
  | nil => simp
  | cons d l ih =>
    simp only [List.foldl_cons]
    rw [ih]
    by_cases h : t.service.activeOn d
    · simp [h, dailyInc, List.countP_cons]
      omega
    · simp [h, dailyInc, List.countP_cons]

theorem tripBump_RouteTripCount (t : Trip) (a : AggrShape) :
    (tripBump feed t a).RouteTripCount t.route.id
      = a.RouteTripCount t.route.id
        + (serviceDayList t.service).countP (fun d => t.service.activeOn d) := by
  unfold tripBump
  rw [calendarFold_RouteTripCount]

/-- A skipped trip leaves the aggregation state unchanged. -/
theorem processTrip_of_skip (st : AggrResult) (t : Trip)
    (h : skipTrip motMap t) : processTrip motMap feed st t = st := by
  unfold processTrip
  rcases hs : t.shape with _ | sh
  · rfl
  · dsimp only
    rw [if_pos]
    rcases h with h | h | h
    · rw [hs] at h
      exact absurd h (by simp)
    · exact Or.inl h
    · exact Or.inr h

/-- The `ret` map after processing a non-skipped trip, per key. -/
theorem findA_processTrip_ret (st : AggrResult) (t : Trip)
    (hns : ¬ skipTrip motMap t) (k : String) :
    findA (processTrip motMap feed st t).ret k
      = if k = tripKey t
        then some (tripBump feed t ((findA st.ret (tripKey t)).getD (newAggrFor t)))
        else findA st.ret k := by
  unfold processTrip
  rcases hs : t.shape with _ | sh
  · exact absurd (Or.inl hs) hns
  · dsimp only
    rw [if_neg (fun h => hns (Or.inr h))]
    have hcur : (match findA st.ret (tripKey t) with
        | some a => a
        | none =>
          { NewAggrShape with
            shape := sh
            From := (t.stopTimes.headD default).shapeDistTraveled
            To := (t.stopTimes.getLastD default).shapeDistTraveled })
        = (findA st.ret (tripKey t)).getD (newAggrFor t) := by
      rcases findA st.ret (tripKey t) with _ | a
      · simp [newAggrFor, hs]
      · simp
    rw [hcur]
    by_cases hk : k = tripKey t
    · subst hk
      rw [if_pos rfl, findA_setA_self]
    · rw [if_neg hk, findA_setA_ne _ _ _ _ hk]

/-- The `routeShapes` map after processing a non-skipped trip records the
trip's key under its route. -/
theorem processTrip_routeShapes (st : AggrResult) (t : Trip)
    (hns : ¬ skipTrip motMap t) :
    tripKey t ∈ ((findA (processTrip motMap feed st t).routeShapes t.route.id).getD []) := by
  unfold processTrip
  rcases hs : t.shape with _ | sh
  · exact absurd (Or.inl hs) hns
  · dsimp only
    rw [if_neg (fun h => hns (Or.inr h))]
    simp only [findA_setA_self, Option.getD_some]
    exact mem_insertNew_self _ _

/-- Claim C6: aggregation skips a trip — it contributes to no `AggrShape`,
no route key set and no statistic, the state is unchanged — iff the trip
has no shape reference, or the mode filter is non-empty and excludes its
route's type, or it has fewer than two stop times; conversely a
non-skipped trip always lands in the `AggrShape` of its key and records
its key under its route. -/
theorem aggregation_skips_iff (motMap : List (Int × Bool)) (feed : Feed)
    (st : AggrResult) (t : Trip) :
    (skipTrip motMap t → processTrip motMap feed st t = st)
    ∧ (¬ skipTrip motMap t →
        ∃ a, findA (processTrip motMap feed st t).ret (tripKey t) = some a
          ∧ t.id ∈ a.Trips
          ∧ tripKey t ∈ ((findA (processTrip motMap feed st t).routeShapes t.route.id).getD [])) := by
  refine ⟨processTrip_of_skip motMap feed st t, fun hns => ?_⟩
  refine ⟨tripBump feed t ((findA st.ret (tripKey t)).getD (newAggrFor t)),
    by rw [findA_processTrip_ret motMap feed st t hns, if_pos rfl], ?_,
    processTrip_routeShapes motMap feed st t hns⟩
  rw [tripBump_Trips]
  exact mem_insertNew_self _ _

/-- Witness for C6: a shapeless trip leaves the empty state unchanged;
a trip with a shape, two stop times and no mode filter lands in the
`AggrShape` of its key. -/
theorem aggregation_skips_iff_witness :
    processTrip [] feedNone ⟨[], []⟩ tripNoShape = ⟨[], []⟩
    ∧ ∃ a, findA (processTrip [] feedNone ⟨[], []⟩ (tripOn10 "t1")).ret
          (tripKey (tripOn10 "t1")) = some a
        ∧ (tripOn10 "t1").id ∈ a.Trips := by
  refine ⟨(aggregation_skips_iff [] feedNone ⟨[], []⟩ tripNoShape).1 (Or.inl rfl), ?_⟩
  obtain ⟨a, ha, hmem, _⟩ :=
    (aggregation_skips_iff [] feedNone ⟨[], []⟩ (tripOn10 "t1")).2 (by decide)
  exact ⟨a, ha, hmem⟩

/-- Claim C5: processing an aggregated (non-skipped) trip increments its
route's raw trip count in its key's `AggrShape` by exactly 1 for each
calendar day, from the service's first active date to its last active
date inclusive, on which the service is active; in particular two daily
trips over a fully active 10-day calendar accumulate a per-route raw
count of 20. -/
theorem aggregation_calendar_counts (motMap : List (Int × Bool)) (feed : Feed)
    (st : AggrResult) (t : Trip) (hns : ¬ skipTrip motMap t) :
    ((findA (processTrip motMap feed st t).ret (tripKey t)).map
        (fun a => a.RouteTripCount t.route.id))
      = some ((((findA st.ret (tripKey t)).map
            (fun a => a.RouteTripCount t.route.id)).getD 0)
          + (serviceDayList t.service).countP (fun d => t.service.activeOn d))
    ∧ ((findA (getAggrShapes [] feedNone [tripOn10 "t1", tripOn10 "t2"]).ret "S").map
        (fun a => a.RouteTripCount "R")) = some 20 := by
  constructor
  · rw [findA_processTrip_ret motMap feed st t hns, if_pos rfl]
    simp only [Option.map_some']
    rw [tripBump_RouteTripCount]
    congr 1
    rcases h : findA st.ret (tripKey t) with _ | a
    · simp [h, newAggrFor, NewAggrShape]
    · simp [h]
  · decide

/-- Witness for C5: one daily trip over the 10-day calendar takes the
count of its key from 0 to 10. -/
theorem aggregation_calendar_counts_witness :
    ((findA (processTrip [] feedNone ⟨[], []⟩ (tripOn10 "t1")).ret
        (tripKey (tripOn10 "t1"))).map
      (fun a => a.RouteTripCount (tripOn10 "t1").route.id)) = some 10 := by
  have h := (aggregation_calendar_counts [] feedNone ⟨[], []⟩ (tripOn10 "t1") (by decide)).1
  rw [h]
  decide

end AggrLemmas

section C1Strings

theorem digitChar_toNat : ∀ m < 10, (digitChar m).toNat = 48 + m := by decide

theorem parseDigits_snoc (l : List Char) (c : Char) :
    parseDigits (l ++ [c]) = parseDigits l * 10 + (c.toNat - 48) := by
  unfold parseDigits
  rw [List.foldl_append]
  rfl

theorem parseDigits_natDigitsAux :
    ∀ fuel n, n < fuel → parseDigits (natDigitsAux fuel n) = n := by
  intro fuel
  induction fuel with
  | zero => intro n h; omega
  | succ fuel ih =>
    intro n h
    unfold natDigitsAux
    by_cases h10 : n < 10
    · rw [if_pos h10]
      show 0 * 10 + ((digitChar n).toNat - 48) = n
      rw [digitChar_toNat n h10]
      omega
    · rw [if_neg h10]
      rw [parseDigits_snoc]
      have hdiv : n / 10 < fuel := by
        have h1 : n / 10 < n := Nat.div_lt_self (by omega) (by omega)
        omega
      rw [ih (n / 10) hdiv, digitChar_toNat (n % 10) (by omega)]
      omega

theorem natDigits_inj {a b : ℕ} (h : natDigits a = natDigits b) : a = b := by
  have ha := parseDigits_natDigitsAux (a + 1) a (by omega)
  have hb := parseDigits_natDigitsAux (b + 1) b (by omega)
  unfold natDigits at h
  rw [← ha, ← hb, h]

theorem mem_natDigitsAux :
    ∀ fuel n c, c ∈ natDigitsAux fuel n → ∃ m, m < 10 ∧ c = digitChar m := by
  intro fuel
  induction fuel with
  | zero => intro n c h; simp [natDigitsAux] at h
  | succ fuel ih =>
    intro n c h
    unfold natDigitsAux at h
    by_cases h10 : n < 10
    · rw [if_pos h10] at h
      simp only [List.mem_singleton] at h
      exact ⟨n, h10, h⟩
    · rw [if_neg h10] at h
      rcases List.mem_append.mp h with h | h
      · exact ih (n / 10) c h
      · simp only [List.mem_singleton] at h
        exact ⟨n % 10, by omega, h⟩

theorem mem_natDigits {n : ℕ} {c : Char} (h : c ∈ natDigits n) :
    ∃ m, m < 10 ∧ c = digitChar m :=
  mem_natDigitsAux (n + 1) n c h

theorem natDigitsAux_ne_nil : ∀ fuel n, 0 < fuel → natDigitsAux fuel n ≠ [] := by
  intro fuel n h
  cases fuel with
  | zero => omega
  | succ fuel =>
    unfold natDigitsAux
    by_cases h10 : n < 10
    · simp [h10]
    · rw [if_neg h10]
      simp

theorem natDigits_ne_nil (n : ℕ) : natDigits n ≠ [] :=
  natDigitsAux_ne_nil (n + 1) n (by omega)

theorem digitChar_not_special : ∀ m < 10,
    digitChar m ≠ '%' ∧ digitChar m ≠ ':' ∧ digitChar m ≠ '.' ∧ digitChar m ≠ '-' := by
  decide

/-- Splitting a list at a separator character that occurs in neither
left part is unambiguous. -/
theorem append_sep_inj (sep : Char) :
    ∀ (a c b d : List Char), sep ∉ a → sep ∉ c →
      a ++ sep :: b = c ++ sep :: d → a = c ∧ b = d := by
  intro a
  induction a with
  | nil =>
    intro c b d _ hc h
    cases c with
    | nil => simpa using h
    | cons x c' =>
      simp only [List.nil_append, List.cons_append, List.cons.injEq] at h
      rw [h.1] at hc
      exact absurd (List.mem_cons_self _ _) hc
  | cons x a' ih =>
    intro c b d ha hc h
    cases c with
    | nil =>
      simp only [List.cons_append, List.nil_append, List.cons.injEq] at h
      rw [h.1] at ha
      exact absurd (List.mem_cons_self _ _) ha
    | cons y c' =>
      simp only [List.cons_append, List.cons.injEq] at h
      obtain ⟨rfl, h2⟩ := h
      have := ih c' b d (fun hm => ha (List.mem_cons_of_mem _ hm))
        (fun hm => hc (List.mem_cons_of_mem _ hm)) h2
      exact ⟨by rw [this.1], this.2⟩

theorem strData_append (a b : String) : (a ++ b).data = a.data ++ b.data := rfl

theorem strExt {a b : String} (h : a.data = b.data) : a = b := by
  cases a
  cases b
  exact congrArg String.mk (by simpa using h)

theorem decimalStr1_data (neg : Bool) (n : ℕ) :
    (decimalStr1 neg n).data = (if neg then ['-'] else [])
      ++ natDigits (n / 10) ++ ['.'] ++ [digitChar (n % 10)] := rfl

theorem dot_notin_natDigits (n : ℕ) : '.' ∉ natDigits n := by
  intro h
  obtain ⟨m, hm, hc⟩ := mem_natDigits h
  exact (digitChar_not_special m hm).2.2.1 hc.symm

theorem decimalStr1_chars {neg : Bool} {n : ℕ} {c : Char}
    (h : c ∈ (decimalStr1 neg n).data) :
    c = '-' ∨ c = '.' ∨ ∃ m, m < 10 ∧ c = digitChar m := by
  rw [decimalStr1_data] at h
  simp only [List.append_assoc, List.mem_append] at h
  rcases h with h | h | h | h
  · cases neg
    · simp at h
    · simp only [if_true, List.mem_singleton] at h
      exact Or.inl h
  · right; right; exact mem_natDigits h
  · simp at h; right; left; exact h
  · simp at h; right; right; exact ⟨n % 10, by omega, h⟩

theorem fmt1_no_pct (q : ℚ) : '%' ∉ (fmt1 q).data := by
  intro h
  rcases decimalStr1_chars h with h | h | ⟨m, hm, h⟩
  · simp at h
  · simp at h
  · exact (digitChar_not_special m hm).1 h.symm

theorem fmt1_no_colon (q : ℚ) : ':' ∉ (fmt1 q).data := by
  intro h
  rcases decimalStr1_chars h with h | h | ⟨m, hm, h⟩
  · simp at h
  · simp at h
  · exact (digitChar_not_special m hm).2.1 h.symm

/-- The signed one-decimal printer is injective in the sign and the
rounded magnitude. -/
theorem decimalStr1_inj {b1 b2 : Bool} {n1 n2 : ℕ}
    (h : decimalStr1 b1 n1 = decimalStr1 b2 n2) : b1 = b2 ∧ n1 = n2 := by
  have hd : (decimalStr1 b1 n1).data = (decimalStr1 b2 n2).data := by rw [h]
  rw [decimalStr1_data, decimalStr1_data] at hd
  cases b1 <;> cases b2
  · simp only [Bool.false_eq_true, if_false, List.nil_append, List.append_assoc] at hd
    have := append_sep_inj '.' _ _ _ _ (dot_notin_natDigits _) (dot_notin_natDigits _) hd
    have hdig := natDigits_inj this.1
    have hlast : digitChar (n1 % 10) = digitChar (n2 % 10) := by
      simpa using this.2
    have hmod := (by decide :
      ∀ x < 10, ∀ y < 10, digitChar x = digitChar y → x = y)
      (n1 % 10) (by omega) (n2 % 10) (by omega) hlast
    exact ⟨rfl, by omega⟩
  · exfalso
    simp only [Bool.false_eq_true, if_false, if_true, List.nil_append, List.cons_append,
      List.append_assoc] at hd
    obtain ⟨c, cs, hc⟩ := List.exists_cons_of_ne_nil (natDigits_ne_nil (n1 / 10))
    rw [hc] at hd
    simp only [List.cons_append, List.cons.injEq] at hd
    have : c ∈ natDigits (n1 / 10) := by rw [hc]; exact List.mem_cons_self c cs
    obtain ⟨m, hm, hcm⟩ := mem_natDigits this
    exact (digitChar_not_special m hm).2.2.2 (by rw [← hcm, hd.1])
  · exfalso
    simp only [Bool.false_eq_true, if_false, if_true, List.nil_append, List.cons_append,
      List.append_assoc] at hd
    obtain ⟨c, cs, hc⟩ := List.exists_cons_of_ne_nil (natDigits_ne_nil (n2 / 10))
    rw [hc] at hd
    simp only [List.cons_append, List.cons.injEq] at hd
    have : c ∈ natDigits (n2 / 10) := by rw [hc]; exact List.mem_cons_self c cs
    obtain ⟨m, hm, hcm⟩ := mem_natDigits this
    exact (digitChar_not_special m hm).2.2.2 (by rw [← hcm, ← hd.1])
  · simp only [if_true, List.cons_append, List.nil_append, List.cons.injEq,
      List.append_assoc, true_and] at hd
    have := append_sep_inj '.' _ _ _ _ (dot_notin_natDigits _) (dot_notin_natDigits _) hd
    have hdig := natDigits_inj this.1
    have hlast : digitChar (n1 % 10) = digitChar (n2 % 10) := by
      simpa using this.2
    have hmod := (by decide :
      ∀ x < 10, ∀ y < 10, digitChar x = digitChar y → x = y)
      (n1 % 10) (by omega) (n2 % 10) (by omega) hlast
    exact ⟨rfl, by omega⟩

/-- The format fix around zero: a small negative distance formats with
its sign (`-0.0`), a small positive one without (`0.0`), as
`strconv.FormatFloat` does. -/
theorem fmt1_signed_zero : fmt1 (-1/100) = "-0.0" ∧ fmt1 (1/100) = "0.0" :=
  ⟨by with_unfolding_all rfl, by with_unfolding_all rfl⟩

theorem rangedKey_data (sid a b : String) :
    (sid ++ "%%%%%" ++ a ++ ":" ++ b).data
      = sid.data ++ '%' :: ('%' :: '%' :: '%' :: '%' :: (a.data ++ ':' :: b.data)) := by
  simp only [strData_append, List.append_assoc]
  rfl

/-- Core key-collision-freeness: when neither shape id contains `'%'`,
two aggregation key strings are equal iff the shape ids agree and the
rounded boundary suffixes agree. -/
theorem tripKey_eq_iff (t1 t2 : Trip)
    (h1 : '%' ∉ (tripShapeId t1).data) (h2 : '%' ∉ (tripShapeId t2).data) :
    tripKey t1 = tripKey t2
      ↔ (tripShapeId t1 = tripShapeId t2 ∧ roundedBounds t1 = roundedBounds t2) := by
  unfold tripKey roundedBounds
  rcases hb1 : tripBoundsRaw t1 with ⟨f1, l1⟩
  rcases hb2 : tripBoundsRaw t2 with ⟨f2, l2⟩
  rcases f1 with _ | f1 <;> rcases l1 with _ | l1 <;>
    rcases f2 with _ | f2 <;> rcases l2 with _ | l2 <;>
    simp only []
  case none.none.none.none => simp
  case none.none.none.some => simp
  case none.none.some.none => simp
  case none.some.none.none => simp
  case none.some.none.some => simp
  case none.some.some.none => simp
  case some.none.none.none => simp
  case some.none.none.some => simp
  case some.none.some.none => simp
  case none.none.some.some =>
    constructor
    · intro h
      exfalso
      have hd := congrArg String.data h
      rw [rangedKey_data] at hd
      exact h1 (hd ▸ List.mem_append_right _ (List.mem_cons_self _ _))
    · rintro ⟨-, h⟩
      simp at h
  case some.none.some.some =>
    constructor
    · intro h
      exfalso
      have hd := congrArg String.data h
      rw [rangedKey_data] at hd
      exact h1 (hd ▸ List.mem_append_right _ (List.mem_cons_self _ _))
    · rintro ⟨-, h⟩
      simp at h
  case none.some.some.some =>
    constructor
    · intro h
      exfalso
      have hd := congrArg String.data h
      rw [rangedKey_data] at hd
      exact h1 (hd ▸ List.mem_append_right _ (List.mem_cons_self _ _))
    · rintro ⟨-, h⟩
      simp at h
  case some.some.none.none =>
    constructor
    · intro h
      exfalso
      have hd := congrArg String.data h
      rw [rangedKey_data] at hd
      exact h2 (hd ▸ List.mem_append_right _ (List.mem_cons_self _ _))
    · rintro ⟨-, h⟩
      simp at h
  case some.some.none.some =>
    constructor
    · intro h
      exfalso
      have hd := congrArg String.data h
      rw [rangedKey_data] at hd
      exact h2 (hd ▸ List.mem_append_right _ (List.mem_cons_self _ _))
    · rintro ⟨-, h⟩
      simp at h
  case some.some.some.none =>
    constructor
    · intro h
      exfalso
      have hd := congrArg String.data h
      rw [rangedKey_data] at hd
      exact h2 (hd ▸ List.mem_append_right _ (List.mem_cons_self _ _))
    · rintro ⟨-, h⟩
      simp at h
  case some.some.some.some =>
    constructor
    · intro h
      have hd := congrArg String.data h
      rw [rangedKey_data, rangedKey_data] at hd
      have hsplit := append_sep_inj '%' _ _ _ _ h1 h2 hd
      refine ⟨strExt hsplit.1, ?_⟩
      have htail := hsplit.2
      simp only [List.cons.injEq, true_and] at htail
      have hsplit2 := append_sep_inj ':' _ _ _ _ (fmt1_no_colon f1) (fmt1_no_colon f2) htail
      have hf := decimalStr1_inj (strExt hsplit2.1 : fmt1 f1 = fmt1 f2)
      have hl := decimalStr1_inj (strExt hsplit2.2 : fmt1 l1 = fmt1 l2)
      have hfp : signedRound1 f1 = signedRound1 f2 := Prod.ext hf.1 hf.2
      have hlp : signedRound1 l1 = signedRound1 l2 := Prod.ext hl.1 hl.2
      simp [hfp, hlp]
    · rintro ⟨hsid, hb⟩
      simp only [Option.some.injEq, Prod.mk.injEq] at hb
      rw [hsid,
        show fmt1 f1 = fmt1 f2 from congrArg (fun p : Bool × ℕ => decimalStr1 p.1 p.2) hb.1,
        show fmt1 l1 = fmt1 l2 from congrArg (fun p : Bool × ℕ => decimalStr1 p.1 p.2) hb.2]

end C1Strings

section C1Aggr

variable (motMap : List (Int × Bool)) (feed : Feed)

theorem tripsAt_processTrip (st : AggrResult) (t : Trip) (k : String) :
    tripsAt (processTrip motMap feed st t) k
      = if ¬ skipTrip motMap t ∧ k = tripKey t
        then insertNew (tripsAt st k) t.id
        else tripsAt st k := by
  by_cases hns : skipTrip motMap t
  · rw [processTrip_of_skip motMap feed st t hns, if_neg (by tauto)]
  · unfold tripsAt
    rw [findA_processTrip_ret motMap feed st t hns]
    by_cases hk : k = tripKey t
    · rw [if_pos hk, if_pos ⟨hns, hk⟩]
      subst hk
      simp only [Option.map_some', Option.getD_some, tripBump_Trips]
      rcases h : findA st.ret (tripKey t) with _ | a
      · simp [h, newAggrFor, NewAggrShape]
      · simp [h]
    · rw [if_neg hk, if_neg (by tauto)]

theorem mem_tripsAt_fold :
    ∀ (ts : List Trip) (st : AggrResult) (x k : String),
      (x ∈ tripsAt (ts.foldl (processTrip motMap feed) st) k
        ↔ x ∈ tripsAt st k
          ∨ ∃ t ∈ ts, ¬ skipTrip motMap t ∧ tripKey t = k ∧ t.id = x) := by
  intro ts
  induction ts with
  | nil => simp
  | cons t ts ih =>
    intro st x k
    simp only [List.foldl_cons]
    rw [ih, tripsAt_processTrip]
    by_cases hc : ¬ skipTrip motMap t ∧ k = tripKey t
    · rw [if_pos hc, mem_insertNew]
      constructor
      · rintro ((h | rfl) | ⟨t', ht', h'⟩)
        · exact Or.inl h
        · exact Or.inr ⟨t, List.mem_cons_self t ts, hc.1, hc.2.symm, rfl⟩
        · exact Or.inr ⟨t', List.mem_cons_of_mem t ht', h'⟩
      · rintro (h | ⟨t', ht', hns', hk', hx'⟩)
        · exact Or.inl (Or.inl h)
        · rcases List.mem_cons.mp ht' with rfl | ht'
          · exact Or.inl (Or.inr hx'.symm)
          · exact Or.inr ⟨t', ht', hns', hk', hx'⟩
    · rw [if_neg hc]
      constructor
      · rintro (h | ⟨t', ht', h'⟩)
        · exact Or.inl h
        · exact Or.inr ⟨t', List.mem_cons_of_mem t ht', h'⟩
      · rintro (h | ⟨t', ht', hns', hk', hx'⟩)
        · exact Or.inl h
        · rcases List.mem_cons.mp ht' with rfl | ht'
          · exact absurd ⟨hns', hk'.symm⟩ hc
          · exact Or.inr ⟨t', ht', hns', hk', hx'⟩

theorem findA_eq_none_iff {β : Type} (m : List (String × β)) (k : String) :
    findA m k = none ↔ k ∉ m.map Prod.fst := by
  induction m with
  | nil => simp [findA]
  | cons e rest ih =>
    obtain ⟨k0, v0⟩ := e
    by_cases h : k0 = k
    · subst h
      simp [findA]
    · simp [findA, h, ih, Ne.symm h]

theorem setA_keys {β : Type} (m : List (String × β)) (k : String) (v : β) :
    (setA m k v).map Prod.fst
      = if k ∈ m.map Prod.fst then m.map Prod.fst else m.map Prod.fst ++ [k] := by
  induction m with
  | nil => simp [setA]
  | cons e rest ih =>
    obtain ⟨k0, v0⟩ := e
    by_cases h : k0 = k
    · subst h
      simp [setA]
    · simp only [setA, if_neg h, List.map_cons, ih]
      by_cases hm : k ∈ rest.map Prod.fst
      · simp [hm, Ne.symm h]
      · simp [hm, Ne.symm h]

theorem nodup_setA_keys {β : Type} (m : List (String × β)) (k : String) (v : β)
    (h : (m.map Prod.fst).Nodup) : ((setA m k v).map Prod.fst).Nodup := by
  rw [setA_keys]
  by_cases hm : k ∈ m.map Prod.fst
  · rwa [if_pos hm]
  · rw [if_neg hm]
    simp [List.nodup_append, h, hm]

theorem nodup_retKeys_fold :
    ∀ (ts : List Trip) (st : AggrResult), (st.ret.map Prod.fst).Nodup →
      (((ts.foldl (processTrip motMap feed) st).ret.map Prod.fst)).Nodup := by
  intro ts
  induction ts with
  | nil => intro st h; exact h
  | cons t ts ih =>
    intro st h
    simp only [List.foldl_cons]
    refine ih _ ?_
    by_cases hns : skipTrip motMap t
    · rwa [processTrip_of_skip motMap feed st t hns]
    · unfold processTrip
      rcases hs : t.shape with _ | sh
      · exact absurd (Or.inl hs) hns
      · dsimp only
        rw [if_neg (fun hh => hns (Or.inr hh))]
        exact nodup_setA_keys _ _ _ h

theorem mem_tripsAt_getAggrShapes (ts : List Trip) (x k : String) :
    x ∈ tripsAt (getAggrShapes motMap feed ts) k
      ↔ ∃ t ∈ ts, ¬ skipTrip motMap t ∧ tripKey t = k ∧ t.id = x := by
  unfold getAggrShapes
  rw [mem_tripsAt_fold]
  simp [tripsAt, findA]

theorem inSameAggrShape_iff (res : AggrResult) (t1 t2 : Trip) :
    inSameAggrShape res t1 t2
      ↔ ∃ k, t1.id ∈ tripsAt res k ∧ t2.id ∈ tripsAt res k := by
  unfold inSameAggrShape tripsAt
  constructor
  · rintro ⟨k, a, hfa, hm1, hm2⟩
    refine ⟨k, ?_, ?_⟩ <;> rw [hfa] <;> simpa
  · rintro ⟨k, hm1, hm2⟩
    rcases hfa : findA res.ret k with _ | a
    · rw [hfa] at hm1
      simp at hm1
    · rw [hfa] at hm1 hm2
      simp only [Option.map_some', Option.getD_some] at hm1 hm2
      exact ⟨k, a, hfa, hm1, hm2⟩

theorem shapeId_pct_free {ts : List Trip} {t : Trip}
    (hpct : ∀ t ∈ ts, ∀ sh : Shape, t.shape = some sh → '%' ∉ sh.id.data)
    (ht : t ∈ ts) (hns : ¬ skipTrip motMap t) : '%' ∉ (tripShapeId t).data := by
  rcases hs : t.shape with _ | sh
  · exact absurd (Or.inl hs) hns
  · have := hpct t ht sh hs
    simpa [tripShapeId, hs] using this

theorem tripKey_of_roundedBounds_none {t : Trip} (h : roundedBounds t = none) :
    tripKey t = tripShapeId t := by
  unfold tripKey
  unfold roundedBounds at h
  rcases hb : tripBoundsRaw t with ⟨f, l⟩
  rw [hb] at h
  rcases f with _ | f <;> rcases l with _ | l <;> simp_all

theorem mem_setA_keys {β : Type} (m : List (String × β)) (key k : String) (v : β) :
    k ∈ (setA m key v).map Prod.fst ↔ k ∈ m.map Prod.fst ∨ k = key := by
  rw [setA_keys]
  by_cases hm : key ∈ m.map Prod.fst
  · rw [if_pos hm]
    constructor
    · exact Or.inl
    · rintro (h | rfl)
      · exact h
      · exact hm
  · rw [if_neg hm]
    simp

theorem mem_retKeys_fold :
    ∀ (ts : List Trip) (st : AggrResult) (k : String),
      (k ∈ (ts.foldl (processTrip motMap feed) st).ret.map Prod.fst
        ↔ k ∈ st.ret.map Prod.fst ∨ ∃ t ∈ ts, ¬ skipTrip motMap t ∧ tripKey t = k) := by
  intro ts
  induction ts with
  | nil => simp
  | cons t ts ih =>
    intro st k
    simp only [List.foldl_cons]
    rw [ih]
    by_cases hns : skipTrip motMap t
    · rw [processTrip_of_skip motMap feed st t hns]
      constructor
      · rintro (h | ⟨t', ht', h'⟩)
        · exact Or.inl h
        · exact Or.inr ⟨t', List.mem_cons_of_mem t ht', h'⟩
      · rintro (h | ⟨t', ht', hns', hk'⟩)
        · exact Or.inl h
        · rcases List.mem_cons.mp ht' with rfl | ht'
          · exact absurd hns hns'
          · exact Or.inr ⟨t', ht', hns', hk'⟩
    · have hkeys : (processTrip motMap feed st t).ret.map Prod.fst
          = (setA st.ret (tripKey t)
              (tripBump feed t ((findA st.ret (tripKey t)).getD (newAggrFor t)))).map Prod.fst := by
        unfold processTrip
        rcases hs : t.shape with _ | sh
        · exact absurd (Or.inl hs) hns
        · dsimp only
          rw [if_neg (fun hh => hns (Or.inr hh))]
          congr 1
          rcases hfa : findA st.ret (tripKey t) with _ | a <;>
            simp [hfa, newAggrFor, hs]
      rw [hkeys, mem_setA_keys]
      constructor
      · rintro ((h | rfl) | ⟨t', ht', h'⟩)
        · exact Or.inl h
        · exact Or.inr ⟨t, List.mem_cons_self t ts, hns, rfl⟩
        · exact Or.inr ⟨t', List.mem_cons_of_mem t ht', h'⟩
      · rintro (h | ⟨t', ht', hns', hk'⟩)
        · exact Or.inl (Or.inl h)
        · rcases List.mem_cons.mp ht' with rfl | ht'
          · exact Or.inl (Or.inr hk'.symm)
          · exact Or.inr ⟨t', ht', hns', hk'⟩

theorem list_eq_singleton_of {l : List String} {a : String}
    (hn : l.Nodup) (hm : ∀ x, x ∈ l ↔ x = a) : l = [a] := by
  cases l with
  | nil => exact absurd ((hm a).mpr rfl) (by simp)
  | cons x xs =>
    have hx : x = a := (hm x).mp (List.mem_cons_self _ _)
    subst hx
    have hxs : xs = [] := by
      cases xs with
      | nil => rfl
      | cons y ys =>
        have hy : y = x := (hm y).mp (by simp)
        subst hy
        simp at hn
    rw [hxs]

/-- Claim C1 (amended): provided no shape id contains the character `%`
(the key separator) and trip ids are distinct (they are Go map keys),
aggregation puts two non-skipped trips into the same `AggrShape` iff they
reference the same shape id and their boundary suffixes agree: both lack
boundary distance data (whole-shape key), or both carry it with the same
formatted one-decimal values — sign included, so a negative distance
rounding to zero (`-0.0`) stays distinct from a non-negative one
(`0.0`).  The `ret` map holds exactly one `AggrShape` per distinct key,
and N trips on one shape with no distance data yield exactly one
`AggrShape` holding all N trip ids. -/
theorem aggregation_key_classes (motMap : List (Int × Bool)) (feed : Feed)
    (trips : List Trip)
    (hpct : ∀ t ∈ trips, ∀ sh : Shape, t.shape = some sh → '%' ∉ sh.id.data)
    (hids : (trips.map Trip.id).Nodup) :
    (∀ t1 ∈ trips, ∀ t2 ∈ trips, ¬ skipTrip motMap t1 → ¬ skipTrip motMap t2 →
        (inSameAggrShape (getAggrShapes motMap feed trips) t1 t2
          ↔ tripShapeId t1 = tripShapeId t2 ∧ roundedBounds t1 = roundedBounds t2))
    ∧ (((getAggrShapes motMap feed trips).ret.map Prod.fst).Nodup)
    ∧ (∀ s : Shape, trips ≠ [] →
        (∀ t ∈ trips, t.shape = some s ∧ roundedBounds t = none ∧ ¬ skipTrip motMap t) →
        ∃ a, (getAggrShapes motMap feed trips).ret = [(s.id, a)]
          ∧ ∀ t ∈ trips, t.id ∈ a.Trips) := by
  refine ⟨?_, nodup_retKeys_fold motMap feed trips ⟨[], []⟩ (by simp), ?_⟩
  · intro t1 ht1 t2 ht2 hns1 hns2
    rw [inSameAggrShape_iff]
    have hkey : (∃ k, t1.id ∈ tripsAt (getAggrShapes motMap feed trips) k
        ∧ t2.id ∈ tripsAt (getAggrShapes motMap feed trips) k)
        ↔ tripKey t1 = tripKey t2 := by
      constructor
      · rintro ⟨k, hm1, hm2⟩
        rw [mem_tripsAt_getAggrShapes] at hm1 hm2
        obtain ⟨ta, hta, hnsa, hka, hia⟩ := hm1
        obtain ⟨tb, htb, hnsb, hkb, hib⟩ := hm2
        have ha : ta = t1 := List.inj_on_of_nodup_map hids hta ht1 hia
        have hb : tb = t2 := List.inj_on_of_nodup_map hids htb ht2 hib
        subst ha
        subst hb
        exact hka.trans hkb.symm
      · intro hk
        exact ⟨tripKey t1,
          (mem_tripsAt_getAggrShapes motMap feed trips t1.id (tripKey t1)).mpr
            ⟨t1, ht1, hns1, rfl, rfl⟩,
          (mem_tripsAt_getAggrShapes motMap feed trips t2.id (tripKey t1)).mpr
            ⟨t2, ht2, hns2, hk.symm, rfl⟩⟩
    rw [hkey]
    exact tripKey_eq_iff t1 t2 (shapeId_pct_free motMap hpct ht1 hns1)
      (shapeId_pct_free motMap hpct ht2 hns2)
  · intro s hne hall
    have hkeyall : ∀ t ∈ trips, tripKey t = s.id := by
      intro t ht
      obtain ⟨hsh, hrb, -⟩ := hall t ht
      rw [tripKey_of_roundedBounds_none hrb]
      simp [tripShapeId, hsh]
    have hmemkeys : ∀ k, k ∈ (getAggrShapes motMap feed trips).ret.map Prod.fst ↔ k = s.id := by
      intro k
      unfold getAggrShapes
      rw [mem_retKeys_fold]
      constructor
      · rintro (h | ⟨t, ht, hns, hk⟩)
        · simp at h
        · rw [← hk, hkeyall t ht]
      · rintro rfl
        obtain ⟨t0, ht0⟩ := List.exists_mem_of_ne_nil trips hne
        exact Or.inr ⟨t0, ht0, (hall t0 ht0).2.2, hkeyall t0 ht0⟩
    have hnodup := nodup_retKeys_fold motMap feed trips ⟨[], []⟩ (by simp)
    have hkeys : (getAggrShapes motMap feed trips).ret.map Prod.fst = [s.id] :=
      list_eq_singleton_of hnodup hmemkeys
    rcases hret : (getAggrShapes motMap feed trips).ret with _ | ⟨⟨k1, a⟩, rest⟩
    · rw [hret] at hkeys
      simp at hkeys
    · rw [hret] at hkeys
      simp only [List.map_cons, List.cons.injEq] at hkeys
      have hrest : rest = [] := List.map_eq_nil_iff.mp hkeys.2
      refine ⟨a, by rw [hkeys.1, hrest], ?_⟩
      intro t ht
      have hm : t.id ∈ tripsAt (getAggrShapes motMap feed trips) s.id :=
        (mem_tripsAt_getAggrShapes motMap feed trips t.id s.id).mpr
          ⟨t, ht, (hall t ht).2.2, hkeyall t ht, rfl⟩
      unfold tripsAt at hm
      rw [hret, hkeys.1, hrest] at hm
      simpa [findA] using hm

/-- Counterexample to claim C1: the trip on the shape literally named
`A%%%%%0.0:1.0` (no distance data) and the trip on shape `A` with
boundary distances 0 and 1 produce the same key string and land in the
same `AggrShape`, although they reference different shapes. -/
theorem aggregation_key_collision :
    tripShapeId tripU1 ≠ tripShapeId tripU2
    ∧ tripU1.shape ≠ tripU2.shape
    ∧ ¬ skipTrip [] tripU1 ∧ ¬ skipTrip [] tripU2
    ∧ inSameAggrShape (getAggrShapes [] feedNone [tripU1, tripU2]) tripU1 tripU2 := by
  have hts : tripsAt (getAggrShapes [] feedNone [tripU1, tripU2]) (tripKey tripU1)
      = ["u1", "u2"] := by with_unfolding_all rfl
  refine ⟨by decide, by decide, by decide, by decide, ?_⟩
  rw [inSameAggrShape_iff]
  refine ⟨tripKey tripU1, ?_, ?_⟩ <;> rw [hts] <;> decide

/-- Witness for C1 (amended) at two distance-free trips on shape `S`:
one `AggrShape` under the whole-shape key containing both trip ids. -/
theorem aggregation_key_classes_witness :
    ∃ a, (getAggrShapes [] feedNone [tripOn10 "t1", tripOn10 "t2"]).ret = [("S", a)]
      ∧ "t1" ∈ a.Trips ∧ "t2" ∈ a.Trips := by
  obtain ⟨a, hret, hall⟩ :=
    (aggregation_key_classes [] feedNone [tripOn10 "t1", tripOn10 "t2"]
      (by
        intro t ht sh hsh
        have hS : some shapeS = some sh := by
          rcases List.mem_cons.mp ht with rfl | ht2
          · exact hsh
          · rcases List.mem_cons.mp ht2 with rfl | h3
            · exact hsh
            · simp at h3
        have hS' := Option.some.inj hS
        subst hS'
        decide)
      (by decide)).2.2 shapeS (by simp) (by decide)
  exact ⟨a, hret, hall (tripOn10 "t1") (by simp), hall (tripOn10 "t2") (by simp)⟩

end C1Aggr

theorem uint8Of_goMin (n : Nat) : uint8Of (goMin 254 n) = min 254 n := by
  unfold uint8Of goMin
  split <;> omega

theorem maxObs_acc (f : AggrShape → Nat) :
    ∀ (l : List AggrShape) (acc : Nat),
      l.foldl (fun a s => max a (f s)) acc = max acc (maxObs f l) := by
  intro l
  induction l with
  | nil => intro acc; simp [maxObs]
  | cons s l ih =>
    intro acc
    simp only [List.foldl_cons]
    rw [ih]
    have h1 : maxObs f (s :: l) = max (f s) (maxObs f l) := by
      have h := ih (max 0 (f s))
      show List.foldl (fun a s => max a (f s)) 0 (s :: l) = _
      rw [List.foldl_cons, h]
      omega
    rw [h1]
    omega

theorem maxObs_cons (f : AggrShape → Nat) (s : AggrShape) (l : List AggrShape) :
    maxObs f (s :: l) = max (f s) (maxObs f l) := by
  have h := maxObs_acc f l (max 0 (f s))
  show List.foldl (fun a s => max a (f s)) 0 (s :: l) = _
  rw [List.foldl_cons, h]
  omega

/-- The write-if-greater fold computes `min 254` of the maximal observed
length. -/
theorem sizeFold_eq_min_max (f : AggrShape → Nat) (shapes : List AggrShape) :
    sizeFold f shapes = min 254 (maxObs f shapes) := by
  unfold sizeFold
  have step : ∀ (l : List AggrShape) (acc : Nat),
      l.foldl (fun sz s => if sz < uint8Of (goMin 254 (f s))
        then uint8Of (goMin 254 (f s)) else sz) acc
      = max acc (min 254 (maxObs f l)) := by
    intro l
    induction l with
    | nil => intro acc; simp [maxObs]
    | cons s l ih =>
      intro acc
      simp only [List.foldl_cons]
      rw [ih, maxObs_cons, uint8Of_goMin]
      split <;> omega
  rw [step]
  omega

set_option maxRecDepth 10000 in
/-- Claim C8: every string-typed field of the fixed schema resolves to
the minimum of 254 and the maximum observed string length for that field
across all records (so never above 254), numeric (float) fields carry
fixed data-independent declared widths, and string values of lengths 3,
300 and 10 for one field resolve to width 254, not 300. -/
theorem resolved_field_widths (fldMap : List (String × String))
    (shapes : List AggrShape) (sh : Shape) :
    getFieldSizesForShapes fldMap shapes
      = [ShpField.StringField (fldName fldMap "Id")
            (min 254 (maxObs (fun s => s.shape.id.length) shapes)),
         ShpField.StringField (fldName fldMap "TripIds")
            (min 254 (maxObs (fun s => (GetTripIdsString s).length) shapes)),
         ShpField.StringField (fldName fldMap "RouteIds")
            (min 254 (maxObs (fun s => (GetRouteIdsString s).length) shapes)),
         ShpField.StringField (fldName fldMap "RouteNames")
            (min 254 (maxObs (fun s => (GetShortNamesString s).length) shapes))]
    ∧ getFieldSizesForShape fldMap sh
        = [ShpField.StringField (fldName fldMap "Id") (min 254 sh.id.length),
           ShpField.FloatField (fldName fldMap "DistTravFrom") 64 10,
           ShpField.FloatField (fldName fldMap "DistTravTo") 64 10]
    ∧ getFieldSizesForShapes []
        [aggrOfTripId (String.mk (List.replicate 3 'a')),
         aggrOfTripId (String.mk (List.replicate 300 'a')),
         aggrOfTripId (String.mk (List.replicate 10 'a'))]
      = [ShpField.StringField "Id" 0, ShpField.StringField "TripIds" 254,
         ShpField.StringField "RouteIds" 0, ShpField.StringField "RouteNames" 0] := by
  refine ⟨?_, ?_, ?_⟩
  · unfold getFieldSizesForShapes
    rw [sizeFold_eq_min_max, sizeFold_eq_min_max, sizeFold_eq_min_max, sizeFold_eq_min_max]
  · unfold getFieldSizesForShape
    have h : (if 0 < uint8Of (goMin 254 sh.id.length)
        then uint8Of (goMin 254 sh.id.length) else 0) = min 254 sh.id.length := by
      rw [uint8Of_goMin]
      split <;> omega
    rw [h]
  · decide

/-- Claim C9: the derived wheelchair-accessibility ratios are total
computations on every route of both per-route output paths — a zero
denominator (zero total trips, or zero qualifying stops) yields the
undefined numeric value `none` (Go: NaN/±Inf), never a program failure,
and a nonzero denominator yields the exact quotient. -/
theorem route_ratios_no_crash (aggr : List (String × AggrShape))
    (keys : List String) (r : String) (a : AggrShape) :
    (routeStatTot aggr keys r (fun x => x.RouteTripCount) = 0 →
      (routeOverviewWchairCells aggr keys r).1 = none)
    ∧ (routeStatTot aggr keys r (fun x => x.NumStops) = 0 →
      (routeOverviewWchairCells aggr keys r).2 = none)
    ∧ (a.RouteTripCount r = 0 → (routeShapeWchairCells a r).1 = none)
    ∧ (a.NumStops r = 0 → (routeShapeWchairCells a r).2 = none)
    ∧ (∀ n d : Nat, d ≠ 0 → fdiv (n : ℚ) (d : ℚ) = some ((n : ℚ) / (d : ℚ))) := by
  refine ⟨fun h => ?_, fun h => ?_, fun h => ?_, fun h => ?_, fun n d hd => ?_⟩
  · simp [routeOverviewWchairCells, fdiv, h]
  · simp [routeOverviewWchairCells, fdiv, h]
  · simp [routeShapeWchairCells, fdiv, h]
  · simp [routeShapeWchairCells, fdiv, h]
  · simp [fdiv, hd]

/-- Witness for C9: an empty key set gives total trip count 0 and the
undefined cell; a fresh record likewise. -/
theorem route_ratios_no_crash_witness :
    (routeOverviewWchairCells [] [] "R").1 = none
    ∧ (routeShapeWchairCells NewAggrShape "R").1 = none :=
  ⟨(route_ratios_no_crash [] [] "R" NewAggrShape).1 rfl,
   (route_ratios_no_crash [] [] "R" NewAggrShape).2.2.1 rfl⟩

end Gtfs2Shp
